import Mathlib

/-!
Shallow embedding of the `predictive_data` repository
(`code_bill/lib/utils/twitter_data.py` and `code_bill/lib/models/bert.py`)
and proofs about its data-preparation and model-construction routines.

Conventions of the embedding:
* Python `float` timestamps are modelled as `ℚ` (exact arithmetic; the claims
  under study are order/length/centering facts that do not depend on rounding).
* Python dictionaries are modelled as association lists with the Python
  key-equality semantics (an `int` key and a `str` key never compare equal).
* Fallible code (an attribute error in a dead split branch) is modelled with
  `Except`.
-/

namespace PredictiveData

/-- A Python value used as a dictionary key in `_read_text` / `_read_label`:
either an `int` (produced by `int(id)`) or a `str` (the raw split field).
Python equality between an `int` and a `str` is always `False`, which is
exactly structural equality of this sum type. -/
inductive PyKey where
  | int (i : Int)
  | str (s : String)
deriving DecidableEq, Repr

/-- Python dict membership test `k in d.keys()`. -/
def pyDictMem (k : PyKey) (d : List (PyKey × String)) : Bool :=
  d.any (fun kv => kv.1 == k)

/-- Python dict assignment `d[k] = v`: overwrite the binding if the key is
present, otherwise append the new binding (Python dicts keep insertion
order). -/
def pyDictInsert (k : PyKey) (v : String) (d : List (PyKey × String)) : List (PyKey × String) :=
  match d with
  | [] => [(k, v)]
  | kv :: rest => if kv.1 == k then (k, v) :: rest else kv :: pyDictInsert k v rest

/-- Decimal-digit accumulator for `pyInt`, skipping whitespace (the Python
`int` builtin ignores surrounding whitespace, e.g. the trailing newline kept by
`line.split` on the id field of the label file). -/
def digitsAcc : List Char → Int → Int
  | [], acc => acc
  | c :: cs, acc =>
    if c.isWhitespace then digitsAcc cs acc
    else digitsAcc cs (acc * 10 + ((c.toNat : Int) - 48))

/-- Python `int(s)` on the id fields of the data files.  Python raises on
non-numeric input; the claims under study only involve well-formed decimal
ids (possibly with surrounding whitespace), on which this parser agrees with
Python. -/
def pyInt (s : String) : Int :=
  match s.toList with
  | c :: cs => if c = '-' then -(digitsAcc cs 0) else digitsAcc (c :: cs) 0
  | [] => 0

/-- `TwitterData._read_text` (`twitter_data.py` lines 263-273).  The input is
the file split into lines, each line already split at its tab into
`(id, text)`.  For each line the code tests `id not in pairs.keys()` — note
that `id` here is the raw *string* while every key of `pairs` is the *int*
`int(id)`, so the membership test compares a `str` against `int` keys.
Returns the dict together with the number of `error` diagnostics printed. -/
def read_text (lines : List (String × String)) : List (PyKey × String) × Nat :=
  lines.foldl
    (fun acc line =>
      if pyDictMem (PyKey.str line.1) acc.1 then
        (acc.1, acc.2 + 1)
      else
        (pyDictInsert (PyKey.int (pyInt line.1)) line.2 acc.1, acc.2))
    ([], 0)

/-- `TwitterData._read_label` (`twitter_data.py` lines 275-285).  Each line is
split at `:` into `(label, id)`; the id is the second field.  Same
string-vs-int membership test as `read_text`. -/
def read_label (lines : List (String × String)) : List (PyKey × String) × Nat :=
  lines.foldl
    (fun acc line =>
      if pyDictMem (PyKey.str line.2) acc.1 then
        (acc.1, acc.2 + 1)
      else
        (pyDictInsert (PyKey.int (pyInt line.2)) line.1 acc.1, acc.2))
    ([], 0)

/-- C1: on a source file with two lines sharing the id `5`, `_read_text`
returns a single binding for id 5 holding the text of the SECOND line and prints
no diagnostic (the duplicate test compares the string id against int keys so
it never fires, and the assignment overwrites the first value); `_read_label`
behaves the same way.  This contradicts the claim that the first occurrence
wins and a diagnostic is emitted. -/
theorem read_text_read_label_duplicate_keeps_last :
    read_text [("5", "first"), ("5", "second")] = ([(PyKey.int 5, "second")], 0) ∧
    read_label [("true", "5"), ("false", "5")] = ([(PyKey.int 5, "false")], 0) := by
  constructor <;> decide

/-! ## Propagation trees and the timing encoder (`twitter_data.py` lines 18-35, 302-376) -/

/-- The `MyNode` dataclass (lines 18-35): node id, parent-subject id and a
timestamp.  The `ROOT` sentinel already maps to id 0 during parsing; the
timestamp, a Python float, is modelled as `ℚ`. -/
structure MyNode where
  id : Int
  sid : Int
  t : ℚ
deriving DecidableEq

/-- An `anytree` node as built by `_build_tree`: a payload and an ordered
list of children (children are attached in file order). -/
inductive PTree where
  | node (name : MyNode) (children : List PTree)

/-- Payload of the root of a tree (`root.name` in the source). -/
def PTree.name : PTree → MyNode
  | .node n _ => n

mutual

/-- Number of nodes of a tree. -/
def numNodes : PTree → Nat
  | .node _ cs => 1 + numNodesL cs

/-- Total number of nodes of a list of trees. -/
def numNodesL : List PTree → Nat
  | [] => 0
  | t :: ts => numNodes t + numNodesL ts

end

theorem numNodesL_append (a b : List PTree) :
    numNodesL (a ++ b) = numNodesL a + numNodesL b := by
  induction a with
  | nil => simp [numNodesL]
  | cons t ts ih => simp [numNodesL, ih]; ring

/-- Breadth-first traversal worker: processes a queue of trees, emitting each
payload and enqueueing its children at the back.  One payload is emitted per
step, so running it with fuel equal to the total node count of the queue
consumes the queue exactly; the fuel only makes the recursion structural. -/
def levelOrderFuel : Nat → List PTree → List MyNode
  | 0, _ => []
  | _, [] => []
  | fuel + 1, .node n cs :: rest => n :: levelOrderFuel fuel (rest ++ cs)

/-- `anytree.LevelOrderIter` on a queue of trees: root first, then each level
left to right. -/
def levelOrder (ts : List PTree) : List MyNode :=
  levelOrderFuel (numNodesL ts) ts

/-- `levelOrderFuel` ignores any surplus fuel: with at least `numNodesL ts`
fuel the result only depends on the queue.  (Each step removes one node from
the total of the queue, so `numNodesL ts` is exactly enough.) -/
theorem levelOrderFuel_sufficient (fuel : Nat) (ts : List PTree)
    (h : numNodesL ts ≤ fuel) :
    levelOrderFuel fuel ts = levelOrderFuel (numNodesL ts) ts := by
  induction fuel using Nat.strong_induction_on generalizing ts with
  | _ fuel ih =>
    match fuel, ts with
    | 0, [] => rfl
    | 0, .node n cs :: rest =>
      exfalso
      simp [numNodesL, numNodes] at h
    | fuel + 1, [] => rfl
    | fuel + 1, .node n cs :: rest =>
      have hcount : numNodesL (.node n cs :: rest) = numNodesL (rest ++ cs) + 1 := by
        simp [numNodesL, numNodes, numNodesL_append]; ring
      have hle : numNodesL (rest ++ cs) ≤ fuel := by omega
      rw [hcount]
      simp only [levelOrderFuel]
      rw [ih fuel (by omega) (rest ++ cs) hle,
        ih (numNodesL (rest ++ cs)) (by omega) (rest ++ cs) le_rfl]

/-- The emitting loop of `_encode_tree` (lines 331-339):
`for i, node in enumerate(LevelOrderIter(root))`, breaking once
`max_length != -1 and i >= max_length`, skipping nodes with
`node.name.t - root_t < 0`, and appending `node.name.t - root_t` otherwise.
The enumeration index `i` advances on skipped nodes as well. -/
def emitAux (max_length : Int) (root_t : ℚ) : List MyNode → Nat → List ℚ
  | [], _ => []
  | nd :: rest, i =>
    if max_length ≠ -1 ∧ max_length ≤ (i : Int) then []
    else if nd.t - root_t < 0 then emitAux max_length root_t rest (i + 1)
    else (nd.t - root_t) :: emitAux max_length root_t rest (i + 1)

/-- The raw (pre-log, pre-padding) sequence `encoding` that `_encode_tree`
builds for the tree of one conversation. -/
def emitSeq (max_length : Int) (tr : PTree) : List ℚ :=
  emitAux max_length tr.name.t (levelOrder [tr]) 0

/-- The per-conversation body of `_encode_tree` (lines 329-353): emit the
offset sequence, apply `log10(x + 1)` entrywise, and when `padding` is set
zero-pad on the right whenever `max_length - len(encoding) > 0`.  The
transcendental `np.log10` is passed in as `log10 : ℚ → ℚ`; none of the
claims depend on its values.  The `deduct_first` flag of the source is
`False` at the only call site and its body does not typecheck in Python
(list minus scalar), so it is not modelled. -/
def encode_one_tree (log10 : ℚ → ℚ) (max_length : Int) (padding : Bool) (tr : PTree) : List ℚ :=
  let encoding := emitSeq max_length tr
  let en_log := encoding.map (fun x => log10 (x + 1))
  if padding then
    if 0 < max_length - (en_log.length : Int) then
      en_log ++ List.replicate (max_length - (en_log.length : Int)).toNat 0
    else en_log
  else en_log

theorem emitAux_eq_take_filter (max_length : Int) (root_t : ℚ) (ns : List MyNode)
    (hL : 1 ≤ max_length) :
    ∀ i : Nat, (i : Int) ≤ max_length →
      emitAux max_length root_t ns i =
        ((ns.take (max_length - (i : Int)).toNat).map (fun nd => nd.t - root_t)).filter
          (fun x => decide (0 ≤ x)) := by
  induction ns with
  | nil => intro i hi; simp [emitAux]
  | cons nd rest ih =>
    intro i hi
    by_cases hge : max_length ≤ (i : Int)
    · have h0 : (max_length - (i : Int)).toNat = 0 := by omega
      have hne : max_length ≠ -1 := by omega
      simp [emitAux, h0, hne, hge]
    · have hsucc : (max_length - (i : Int)).toNat = (max_length - ((i : Int) + 1)).toNat + 1 := by
        omega
      have hi1 : ((i + 1 : Nat) : Int) ≤ max_length := by push_cast; omega
      have hrec := ih (i + 1) hi1
      rw [hsucc, List.take_succ_cons, List.map_cons, List.filter_cons]
      by_cases hneg : nd.t - root_t < 0
      · have hdec : (decide (0 ≤ nd.t - root_t)) = false := by
          simpa using not_le.mpr hneg
        rw [hdec]
        simp only [Bool.false_eq_true, if_false]
        rw [emitAux, if_neg (by push_neg; intro _; omega), if_pos hneg, hrec]
        push_cast
        ring_nf
      · have hdec : (decide (0 ≤ nd.t - root_t)) = true := by
          simpa using not_lt.mp hneg
        rw [hdec]
        simp only [if_true]
        rw [emitAux, if_neg (by push_neg; intro _; omega), if_neg hneg, hrec]
        push_cast
        ring_nf

/-- C2 (amended): for `max_tree_length = L ≥ 1` the emitted (pre-padding)
sequence equals the non-negative offsets among the FIRST `L` nodes of the
level-order traversal — a skipped negative-offset node therefore DOES count
toward the truncation limit (the `enumerate` index of the loop advances on
skipped nodes), and no negative offset ever appears in the sequence. -/
theorem emitSeq_first_L_nonneg (max_length : Int) (tr : PTree) (hL : 1 ≤ max_length) :
    emitSeq max_length tr =
      (((levelOrder [tr]).take max_length.toNat).map (fun nd => nd.t - tr.name.t)).filter
        (fun x => decide (0 ≤ x)) ∧
    ∀ x ∈ emitSeq max_length tr, 0 ≤ x := by
  have h := emitAux_eq_take_filter max_length tr.name.t (levelOrder [tr]) hL 0 (by omega)
  have h0 : ((0 : Nat) : Int) = 0 := rfl
  rw [h0, sub_zero] at h
  refine ⟨h, ?_⟩
  intro x hx
  rw [emitSeq, h] at hx
  have := List.of_mem_filter hx
  simpa using this

/-- A tree whose root has timestamp 0 and whose two children have offsets
`-1` and `5`: with `max_tree_length = 2` the encoder emits only the offset of the root, although two non-negative-offset nodes exist in level order. -/
def cexTree : PTree :=
  .node ⟨0, 0, 0⟩ [.node ⟨1, 0, -1⟩ [], .node ⟨2, 0, 5⟩ []]

/-- C2 counterexample to the claim as stated: on `cexTree` with
`max_tree_length = 2` the emitted sequence has 1 entry, while the number of
non-negative-offset nodes in level order capped at 2 is 2 — the skipped
negative-offset child consumed one slot of the truncation budget. -/
theorem emitSeq_skip_counts_toward_limit_cex :
    (emitSeq 2 cexTree).length = 1 ∧
    ((levelOrder [cexTree]).filter (fun nd => decide (0 ≤ nd.t - cexTree.name.t))).length = 2 ∧
    (emitSeq 2 cexTree).length ≠
      min ((levelOrder [cexTree]).filter
        (fun nd => decide (0 ≤ nd.t - cexTree.name.t))).length 2 := by
  have h1 : levelOrder [cexTree] = [⟨0, 0, 0⟩, ⟨1, 0, -1⟩, ⟨2, 0, 5⟩] := by
    norm_num [cexTree, levelOrder, numNodesL, numNodes, levelOrderFuel]
  have h2 : emitSeq 2 cexTree = [0] := by
    rw [emitSeq, h1]
    norm_num [cexTree, PTree.name, emitAux]
  rw [h2, h1]
  norm_num [cexTree, PTree.name]

/-- Witness for `emitSeq_first_L_nonneg` at `L = 2` on `cexTree`. -/
theorem emitSeq_first_L_nonneg_witness :
    (1 : Int) ≤ 2 ∧
    (emitSeq 2 cexTree =
      (((levelOrder [cexTree]).take (2 : Int).toNat).map
        (fun nd => nd.t - cexTree.name.t)).filter (fun x => decide (0 ≤ x)) ∧
    ∀ x ∈ emitSeq 2 cexTree, 0 ≤ x) :=
  ⟨by norm_num, emitSeq_first_L_nonneg 2 cexTree (by norm_num)⟩

theorem emitSeq_length_le (max_length : Int) (tr : PTree) (hL : 1 ≤ max_length) :
    (emitSeq max_length tr).length ≤ max_length.toNat := by
  have h := emitAux_eq_take_filter max_length tr.name.t (levelOrder [tr]) hL 0 (by omega)
  rw [show ((0 : Nat) : Int) = 0 from rfl, sub_zero] at h
  rw [emitSeq, h]
  calc ((((levelOrder [tr]).take max_length.toNat).map
        (fun nd => nd.t - tr.name.t)).filter (fun x => decide (0 ≤ x))).length
      ≤ (((levelOrder [tr]).take max_length.toNat).map (fun nd => nd.t - tr.name.t)).length :=
        List.length_filter_le _ _
    _ = ((levelOrder [tr]).take max_length.toNat).length := List.length_map _ _
    _ ≤ max_length.toNat := by rw [List.length_take]; exact min_le_left _ _

/-- C3: with padding enabled and `max_tree_length = L ≥ 1`, the encoded
feature vector of any tree has length exactly `L`, and every entry past the
emitted prefix (the right padding) is exactly `0` in the unnormalized
(pre-mean-subtraction) vector. -/
theorem encode_one_tree_length_padding (log10 : ℚ → ℚ) (max_length : Int) (tr : PTree)
    (hL : 1 ≤ max_length) :
    (encode_one_tree log10 max_length true tr).length = max_length.toNat ∧
    ∀ j : Nat, (emitSeq max_length tr).length ≤ j → j < max_length.toNat →
      (encode_one_tree log10 max_length true tr).getD j 1 = 0 := by
  have hk : (emitSeq max_length tr).length ≤ max_length.toNat :=
    emitSeq_length_le max_length tr hL
  set k := (emitSeq max_length tr).length with hkdef
  have hlen : ((emitSeq max_length tr).map (fun x => log10 (x + 1))).length = k :=
    List.length_map _ _
  rw [encode_one_tree]
  simp only [if_true, ← hkdef, hlen]
  by_cases hpad : 0 < max_length - (k : Int)
  · rw [if_pos hpad]
    constructor
    · rw [List.length_append, List.length_replicate, hlen]
      omega
    · intro j hj hjL
      rw [List.getD_append_right _ _ _ _ (by rw [hlen]; exact hj)]
      have hjr : j - ((emitSeq max_length tr).map (fun x => log10 (x + 1))).length <
          (max_length - (k : Int)).toNat := by
        rw [hlen]; omega
      rw [List.getD_eq_getElem _ _ (by simpa using hjr)]
      exact List.getElem_replicate _ _
  · rw [if_neg hpad]
    have hkL : k = max_length.toNat := by omega
    refine ⟨by rw [hlen, hkL], ?_⟩
    intro j hj hjL
    omega

/-- A three-node chain used as the concrete input of the C3 witness. -/
def padTree : PTree :=
  .node ⟨0, 0, 0⟩ [.node ⟨1, 0, 2⟩ []]

/-- Witness for `encode_one_tree_length_padding` with the identity in place
of `log10`, `L = 4` and the two-node tree `padTree`. -/
theorem encode_one_tree_length_padding_witness :
    (1 : Int) ≤ 4 ∧
    ((encode_one_tree (fun x => x) 4 true padTree).length = (4 : Int).toNat ∧
    ∀ j : Nat, (emitSeq 4 padTree).length ≤ j → j < (4 : Int).toNat →
      (encode_one_tree (fun x => x) 4 true padTree).getD j 1 = 0) :=
  ⟨by norm_num, encode_one_tree_length_padding (fun x => x) 4 padTree (by norm_num)⟩

/-- `(encode_one_tree log10 L true tr).length = L` whenever `L ≥ 1` (helper
shared by several claims; the emitted prefix has at most `L` entries and the
right padding fills the vector up to `L`). -/
theorem encode_one_tree_length (log10 : ℚ → ℚ) (max_length : Int) (tr : PTree)
    (hL : 1 ≤ max_length) :
    (encode_one_tree log10 max_length true tr).length = max_length.toNat := by
  have hk : (emitSeq max_length tr).length ≤ max_length.toNat :=
    emitSeq_length_le max_length tr hL
  set k := (emitSeq max_length tr).length with hkdef
  have hlen : ((emitSeq max_length tr).map (fun x => log10 (x + 1))).length = k :=
    List.length_map _ _
  rw [encode_one_tree]
  simp only [if_true, ← hkdef, hlen]
  by_cases hpad : 0 < max_length - (k : Int)
  · rw [if_pos hpad, List.length_append, List.length_replicate, hlen]
    omega
  · rw [if_neg hpad, hlen]
    omega

theorem encode_one_tree_ne_nil (log10 : ℚ → ℚ) (max_length : Int) (tr : PTree)
    (hL : 1 ≤ max_length) :
    encode_one_tree log10 max_length true tr ≠ [] := by
  intro h
  have := encode_one_tree_length log10 max_length tr hL
  rw [h] at this
  simp at this
  omega

/-! ## The whole-corpus part of `_encode_tree` (lines 326-376) -/

/-- Insert an entry into a key-sorted association list. -/
def insertByKey {β : Type} (p : Int × β) : List (Int × β) → List (Int × β)
  | [] => [p]
  | q :: qs => if p.1 ≤ q.1 then p :: q :: qs else q :: insertByKey p qs

/-- Sort an association list by key (insertion sort).  `_encode_tree`
iterates `for index in sorted(tree_map.keys())` and reads `tree_map[index]`;
the keys of a dict being distinct, this is the same as traversing the entry list
sorted by key. -/
def sortByKey {β : Type} : List (Int × β) → List (Int × β)
  | [] => []
  | p :: ps => insertByKey p (sortByKey ps)

theorem insertByKey_perm {β : Type} (p : Int × β) (l : List (Int × β)) :
    (insertByKey p l).Perm (p :: l) := by
  induction l with
  | nil => simp [insertByKey]
  | cons q qs ih =>
    rw [insertByKey]
    by_cases h : p.1 ≤ q.1
    · rw [if_pos h]
    · rw [if_neg h]
      exact (ih.cons q).trans (List.Perm.swap p q qs)

theorem sortByKey_perm {β : Type} (l : List (Int × β)) : (sortByKey l).Perm l := by
  induction l with
  | nil => simp [sortByKey]
  | cons p ps ih =>
    rw [sortByKey]
    exact (insertByKey_perm p (sortByKey ps)).trans (ih.cons p)

/-- `np.average` of a list of rationals (the source only ever averages along
the single axis of a 1-d array). -/
def average (l : List ℚ) : ℚ := l.sum / l.length

/-- `TwitterData._encode_tree` (lines 326-376): encode every tree of the map
(keys in sorted order), collect the per-conversation averages `avg`, form
`my_mean = np.average(avg)` and `my_std = np.std(avg)`, and subtract
`my_mean` from every entry of the vector of every conversation.  `np.std` is the
square root of the mean squared deviation; the square root of a rational is
not rational, and the value is returned but never consumed by any caller, so
the embedding returns the squared standard deviation (the variance) in its
place.  Returns `(encoded_trees, my_mean, my_std²)`. -/
def encode_tree (log10 : ℚ → ℚ) (tree_map : List (Int × PTree)) (max_length : Int)
    (padding : Bool) : List (Int × List ℚ) × ℚ × ℚ :=
  let encoded_trees := (sortByKey tree_map).map
    (fun kv => (kv.1, encode_one_tree log10 max_length padding kv.2))
  let avg := encoded_trees.map (fun kv => average kv.2)
  let my_mean := average avg
  let my_std_sq := average (avg.map (fun a => (a - my_mean) ^ 2))
  (encoded_trees.map (fun kv => (kv.1, kv.2.map (fun x => x - my_mean))), my_mean, my_std_sq)

theorem sum_map_sub (l : List ℚ) (c : ℚ) :
    (l.map (fun x => x - c)).sum = l.sum - l.length * c := by
  induction l with
  | nil => simp
  | cons x xs ih => simp [ih]; ring

theorem average_map_sub (l : List ℚ) (c : ℚ) (h : l ≠ []) :
    average (l.map (fun x => x - c)) = average l - c := by
  have hn : (l.length : ℚ) ≠ 0 := by
    simpa using List.length_pos.mpr h |>.ne'
  rw [average, average, sum_map_sub, List.length_map]
  field_simp

theorem average_center_zero (E : List (Int × List ℚ)) (hEne : E ≠ [])
    (hvne : ∀ kv ∈ E, kv.2 ≠ ([] : List ℚ)) :
    average ((E.map (fun kv =>
        (kv.1, kv.2.map (fun x => x - average (E.map (fun kv => average kv.2)))))).map
      (fun kv => average kv.2)) = 0 := by
  set m := average (E.map (fun kv => average kv.2)) with hm
  rw [List.map_map]
  have h1 : E.map ((fun kv => average kv.2) ∘
      (fun kv : Int × List ℚ => (kv.1, kv.2.map (fun x => x - m))))
      = E.map (fun kv => average kv.2 - m) := by
    apply List.map_congr_left
    intro kv hkv
    simp only [Function.comp]
    exact average_map_sub kv.2 m (hvne kv hkv)
  have h2 : E.map (fun kv => average kv.2 - m)
      = (E.map (fun kv => average kv.2)).map (fun a => a - m) := by
    rw [List.map_map]
    rfl
  have h3 : E.map (fun kv => average kv.2) ≠ [] := by
    intro h
    exact hEne (List.map_eq_nil_iff.mp h)
  rw [h1, h2, average_map_sub _ _ h3, hm]
  ring

/-- C4: for a non-empty tree map (and `L ≥ 1` so that every encoded vector
is non-empty, as the pipeline guarantees with `padding=True`), `_encode_tree`
subtracts the corpus-wide mean of per-conversation means from every entry of
every vector — so the average of the per-conversation means of the centered
output is exactly 0 — and the returned vectors are exactly the unnormalized
vectors shifted by `my_mean`: the returned standard deviation is never
applied to any vector (no scaling occurs). -/
theorem encode_tree_centering (log10 : ℚ → ℚ) (tree_map : List (Int × PTree))
    (max_length : Int) (hne : tree_map ≠ []) (hL : 1 ≤ max_length) :
    average (((encode_tree log10 tree_map max_length true).1).map
      (fun kv => average kv.2)) = 0 ∧
    (encode_tree log10 tree_map max_length true).1 =
      (sortByKey tree_map).map (fun kv =>
        (kv.1, (encode_one_tree log10 max_length true kv.2).map
          (fun x => x - (encode_tree log10 tree_map max_length true).2.1))) := by
  have hEne : (sortByKey tree_map).map
      (fun kv => (kv.1, encode_one_tree log10 max_length true kv.2)) ≠ [] := by
    intro h
    have hnil := List.map_eq_nil_iff.mp h
    have hperm := sortByKey_perm tree_map
    rw [hnil] at hperm
    exact hne hperm.nil_eq.symm
  have hvne : ∀ kv ∈ (sortByKey tree_map).map
      (fun kv => (kv.1, encode_one_tree log10 max_length true kv.2)),
      kv.2 ≠ ([] : List ℚ) := by
    intro kv hkv
    obtain ⟨ab, _, rfl⟩ := List.mem_map.mp hkv
    exact encode_one_tree_ne_nil log10 max_length ab.2 hL
  constructor
  · simpa only [encode_tree] using
      average_center_zero _ hEne hvne
  · simp only [encode_tree, List.map_map]
    rfl

/-- Two single-node trees with root timestamps 0 and 3, the concrete corpus
of the C4 witness. -/
def wMapC4 : List (Int × PTree) :=
  [(1, .node ⟨0, 0, 0⟩ []), (2, .node ⟨0, 0, 3⟩ [])]

/-- Witness for `encode_tree_centering` on `wMapC4` with `L = 1` and the
identity in place of `log10`. -/
theorem encode_tree_centering_witness :
    wMapC4 ≠ [] ∧ (1 : Int) ≤ 1 ∧
    (average (((encode_tree (fun x => x) wMapC4 1 true).1).map
      (fun kv => average kv.2)) = 0 ∧
    (encode_tree (fun x => x) wMapC4 1 true).1 =
      (sortByKey wMapC4).map (fun kv =>
        (kv.1, (encode_one_tree (fun x => x) 1 true kv.2).map
          (fun x => x - (encode_tree (fun x => x) wMapC4 1 true).2.1)))) :=
  ⟨by simp [wMapC4], by norm_num,
    encode_tree_centering (fun x => x) wMapC4 1 (by simp [wMapC4]) (by norm_num)⟩

/-! ## Split strategies (`twitter_data.py` lines 62-68 and 158-207) -/

/-- The split-strategy normalization in `TwitterData.__init__` (lines 62-68):
a strategy outside the accepted list is replaced by the sentinel string
`641620` and a warning is printed.  Returns the stored strategy together
with whether the warning was printed. -/
def init_split_type (split_type : String) : String × Bool :=
  if split_type ∈ ["1516", "tv", "tvt", "15_tvt", "16_tvt"] then (split_type, false)
  else ("641620", true)

/-- The three dataset partitions, each either a list of
`(example, label)` pairs or absent — `setup` initializes all three to
`None` before `_data_split` runs. -/
structure SplitState (α : Type) where
  train : Option (List (α × Int))
  val : Option (List (α × Int))
  test : Option (List (α × Int))
deriving DecidableEq

/-- Modelled from the spec: `sklearn.model_selection.train_test_split` is an
external dependency (spec §6 lists "a train/test split utility").  Per the
spec it shuffles deterministically (fixed seed), takes a `train_size = 0.8`
fraction for the train part (whole-number rounding) and the rest for the
test part, stratifying by label while preserving the example set.  The
deterministic seeded shuffle-plus-stratified-reorder is abstracted as the
function `shuffle` on joined `(example, label)` pairs (theorems that need it
assume `shuffle` permutes its input); the train part receives
`⌊0.8·n⌋ = 4n/5` pairs and the test part the remaining ones.  Returns
`(X_train, X_test, y_train, y_test)` as in sklearn. -/
def train_test_split {α : Type} (shuffle : List (α × Int) → List (α × Int))
    (X : List α) (y : List Int) : List α × List α × List Int × List Int :=
  let pairs := shuffle (X.zip y)
  let n_train := 4 * pairs.length / 5
  ((pairs.take n_train).map Prod.fst, (pairs.drop n_train).map Prod.fst,
   (pairs.take n_train).map Prod.snd, (pairs.drop n_train).map Prod.snd)

/-- `TwitterData._data_split` (lines 158-207).  The five `if` branches are
keyed on `split_type`; `tt` dereferences the non-existent attribute path
`self.self.classes` and would raise an `AttributeError` if ever reached, so
that branch is an `Except.error`; a `split_type` matching no branch leaves
the partitions untouched. -/
def data_split {α : Type} (shuffle : List (α × Int) → List (α × Int))
    (tw15_X : List α) (tw15_y : List Int) (tw16_X : List α) (tw16_y : List Int)
    (split_type : String) (s : SplitState α) : Except String (SplitState α) :=
  let s := if split_type = "1516" then
      { s with train := some (tw15_X.zip tw15_y), test := some (tw16_X.zip tw16_y) }
    else s
  if split_type = "tt" then
    Except.error ("AttributeError: TwitterData object has no attribute self")
  else
  let s := if split_type = "tvt" then
      let X := tw15_X ++ tw16_X
      let y := tw15_y ++ tw16_y
      let (x_train, x_test, y_train, y_test) := train_test_split shuffle X y
      let (x_train2, x_val, y_train2, y_val) := train_test_split shuffle x_train y_train
      { s with train := some (x_train2.zip y_train2), val := some (x_val.zip y_val),
               test := some (x_test.zip y_test) }
    else s
  let s := if split_type = "15_tvt" then
      let (x_train, x_test, y_train, y_test) := train_test_split shuffle tw15_X tw15_y
      let (x_train2, x_val, y_train2, y_val) := train_test_split shuffle x_train y_train
      { s with train := some (x_train2.zip y_train2), val := some (x_val.zip y_val),
               test := some (x_test.zip y_test) }
    else s
  let s := if split_type = "16_tvt" then
      let (x_train, x_test, y_train, y_test) := train_test_split shuffle tw16_X tw16_y
      let (x_train2, x_val, y_train2, y_val) := train_test_split shuffle x_train y_train
      { s with train := some (x_train2.zip y_train2), val := some (x_val.zip y_val),
               test := some (x_test.zip y_test) }
    else s
  Except.ok s

/-- C5: constructing with a `split_type` outside the accepted list prints the
warning and stores the sentinel `641620`, and running the split step under
the sentinel matches no branch, raises nothing and leaves all three
partitions `None`. -/
theorem invalid_split_type_sentinel_no_partitions (s : String)
    (h : s ∉ ["1516", "tv", "tvt", "15_tvt", "16_tvt"]) :
    init_split_type s = ("641620", true) ∧
    ∀ (α : Type) (shuffle : List (α × Int) → List (α × Int))
      (tw15_X : List α) (tw15_y : List Int) (tw16_X : List α) (tw16_y : List Int),
      data_split shuffle tw15_X tw15_y tw16_X tw16_y ("641620") ⟨none, none, none⟩ =
        Except.ok ⟨none, none, none⟩ := by
  constructor
  · rw [init_split_type, if_neg h]
  · intro α shuffle tw15_X tw15_y tw16_X tw16_y
    rfl

/-- Witness for `invalid_split_type_sentinel_no_partitions` at the invalid
strategy string `8:2`. -/
theorem invalid_split_type_sentinel_no_partitions_witness :
    init_split_type ("8:2") = ("641620", true) ∧
    ∀ (α : Type) (shuffle : List (α × Int) → List (α × Int))
      (tw15_X : List α) (tw15_y : List Int) (tw16_X : List α) (tw16_y : List Int),
      data_split shuffle tw15_X tw15_y tw16_X tw16_y ("641620") ⟨none, none, none⟩ =
        Except.ok ⟨none, none, none⟩ :=
  invalid_split_type_sentinel_no_partitions ("8:2") (by decide)

/-- C6: under strategy `1516`, train is exactly the Twitter15 examples
zipped with their labels, test is exactly the Twitter16 examples zipped with
their labels, and no validation partition is created. -/
theorem split_1516_train15_test16 {α : Type}
    (shuffle : List (α × Int) → List (α × Int))
    (tw15_X : List α) (tw15_y : List Int) (tw16_X : List α) (tw16_y : List Int) :
    data_split shuffle tw15_X tw15_y tw16_X tw16_y ("1516") ⟨none, none, none⟩ =
      Except.ok ⟨some (tw15_X.zip tw15_y), none, some (tw16_X.zip tw16_y)⟩ := by
  rfl

/-- C9: `tv` is accepted at construction (no warning, no coercion), yet the
split step has no `tv` branch, so it leaves all three partitions `None`
without raising — the same silent degradation as an unrecognized strategy;
the only nearby branch is keyed `tt`, which construction never lets through
(it is coerced to the sentinel with a warning). -/
theorem split_tv_accepted_but_unmatched :
    init_split_type ("tv") = ("tv", false) ∧
    init_split_type ("tt") = ("641620", true) ∧
    ∀ (α : Type) (shuffle : List (α × Int) → List (α × Int))
      (tw15_X : List α) (tw15_y : List Int) (tw16_X : List α) (tw16_y : List Int),
      data_split shuffle tw15_X tw15_y tw16_X tw16_y ("tv") ⟨none, none, none⟩ =
        Except.ok ⟨none, none, none⟩ := by
  refine ⟨by decide, by decide, ?_⟩
  intro α shuffle tw15_X tw15_y tw16_X tw16_y
  rfl

theorem zip_map_fst_snd {α β : Type} (l : List (α × β)) :
    (l.map Prod.fst).zip (l.map Prod.snd) = l := by
  induction l with
  | nil => rfl
  | cons p ps ih => simp [ih]

/-- C7: under the default strategy `tvt`, the pooled Twitter15+Twitter16
examples are split by a stratified shuffled 80/20 split into train-pool and
test and the train-pool again by a stratified shuffled 80/20 split into
train and val, so with `N` pooled examples `len(train) = ⌊0.8·⌊0.8N⌋⌋`,
`len(val) = ⌊0.8N⌋ - ⌊0.8·⌊0.8N⌋⌋`, `len(test) = N - ⌊0.8N⌋`
(approximately 0.64N / 0.16N / 0.2N), and the three partitions together are
a permutation of the pooled examples (pairwise disjoint as multisets, union
recovering all `N`). -/
theorem data_split_tvt_partition {α : Type}
    (shuffle : List (α × Int) → List (α × Int))
    (hsh : ∀ l, (shuffle l).Perm l)
    (tw15_X : List α) (tw15_y : List Int) (tw16_X : List α) (tw16_y : List Int)
    (h15 : tw15_X.length = tw15_y.length) (h16 : tw16_X.length = tw16_y.length) :
    ∃ train val test : List (α × Int),
      data_split shuffle tw15_X tw15_y tw16_X tw16_y ("tvt") ⟨none, none, none⟩ =
        Except.ok ⟨some train, some val, some test⟩ ∧
      train.length = 4 * (4 * (tw15_X.length + tw16_X.length) / 5) / 5 ∧
      val.length = 4 * (tw15_X.length + tw16_X.length) / 5
        - 4 * (4 * (tw15_X.length + tw16_X.length) / 5) / 5 ∧
      test.length = (tw15_X.length + tw16_X.length)
        - 4 * (tw15_X.length + tw16_X.length) / 5 ∧
      (train ++ val ++ test).Perm (tw15_X.zip tw15_y ++ tw16_X.zip tw16_y) := by
  have hzip : (tw15_X ++ tw16_X).zip (tw15_y ++ tw16_y)
      = tw15_X.zip tw15_y ++ tw16_X.zip tw16_y := List.zip_append h15
  set p1 := shuffle ((tw15_X ++ tw16_X).zip (tw15_y ++ tw16_y)) with hp1def
  have hperm1 : p1.Perm (tw15_X.zip tw15_y ++ tw16_X.zip tw16_y) := by
    rw [hp1def, ← hzip]
    exact hsh _
  have hN : p1.length = tw15_X.length + tw16_X.length := by
    rw [hperm1.length_eq, List.length_append, List.length_zip, List.length_zip,
      ← h15, ← h16]
    simp
  set n1 := 4 * p1.length / 5 with hn1def
  have hn1le : n1 ≤ p1.length := by omega
  have hlen1 : (p1.take n1).length = n1 := by
    rw [List.length_take]
    omega
  have hzt : ((p1.take n1).map Prod.fst).zip ((p1.take n1).map Prod.snd) = p1.take n1 :=
    zip_map_fst_snd _
  set p2 := shuffle (((p1.take n1).map Prod.fst).zip ((p1.take n1).map Prod.snd)) with hp2def
  have hperm2 : p2.Perm (p1.take n1) :=
    List.Perm.trans (hsh (((p1.take n1).map Prod.fst).zip ((p1.take n1).map Prod.snd)))
      (by rw [hzt])
  have hp2len : p2.length = n1 := hperm2.length_eq.trans hlen1
  set n2 := 4 * p2.length / 5 with hn2def
  have hn2le : n2 ≤ p2.length := by omega
  refine ⟨((p2.take n2).map Prod.fst).zip ((p2.take n2).map Prod.snd),
          ((p2.drop n2).map Prod.fst).zip ((p2.drop n2).map Prod.snd),
          ((p1.drop n1).map Prod.fst).zip ((p1.drop n1).map Prod.snd),
          ?_, ?_, ?_, ?_, ?_⟩
  · rfl
  · rw [zip_map_fst_snd, List.length_take]
    omega
  · rw [zip_map_fst_snd, List.length_drop]
    omega
  · rw [zip_map_fst_snd, List.length_drop]
    omega
  · rw [zip_map_fst_snd, zip_map_fst_snd, zip_map_fst_snd]
    have hstep : (p2 ++ p1.drop n1).Perm (p1.take n1 ++ p1.drop n1) :=
      hperm2.append_right _
    rw [List.take_append_drop] at hstep
    rw [List.take_append_drop]
    exact hstep.trans hperm1

/-- Witness for `data_split_tvt_partition`: the identity shuffle on a pooled
corpus of 2 + 3 labelled examples (so 3/1/1 examples land in
train/val/test). -/
theorem data_split_tvt_partition_witness :
    ∃ train val test : List (Nat × Int),
      data_split (fun l => l) [10, 20] [0, 1] [30, 40, 50] [1, 0, 1] ("tvt")
          ⟨none, none, none⟩ =
        Except.ok ⟨some train, some val, some test⟩ ∧
      train.length = 4 * (4 * ([10, 20].length + [30, 40, 50].length) / 5) / 5 ∧
      val.length = 4 * ([10, 20].length + [30, 40, 50].length) / 5
        - 4 * (4 * ([10, 20].length + [30, 40, 50].length) / 5) / 5 ∧
      test.length = ([10, 20].length + [30, 40, 50].length)
        - 4 * ([10, 20].length + [30, 40, 50].length) / 5 ∧
      (train ++ val ++ test).Perm
        (([10, 20].zip [0, 1]) ++ ([30, 40, 50].zip [1, 0, 1])) :=
  data_split_tvt_partition (fun l => l) (fun l => List.Perm.refl l)
    [10, 20] [0, 1] [30, 40, 50] [1, 0, 1] rfl rfl

/-! ## Encoder freezing (`bert.py` lines 90-104) -/

/-- The `half` branch of `freeze_layer`: walk the parameter list with a
running `count` starting at 0, set `requires_grad = False`, then overwrite
it with `True` when `count > n // 2`; `n` is the total parameter count. -/
def freeze_half_loop (n : Nat) : List Bool → Nat → List Bool
  | [], _ => []
  | _ :: ps, count =>
    (if count > n / 2 then true else false) :: freeze_half_loop n ps (count + 1)

/-- `BertMNLIFinetuner.freeze_layer` (lines 90-104) acting on the parameter list
of the encoder, each parameter represented by its `requires_grad` flag:
`all` disables every gradient, `no` enables every gradient, `half` runs the
counted loop, and any other `freeze_type` falls through leaving the flags
unchanged. -/
def freeze_layer (freeze_type : String) (params : List Bool) : List Bool :=
  if freeze_type = "all" then params.map (fun _ => false)
  else if freeze_type = "no" then params.map (fun _ => true)
  else if freeze_type = "half" then freeze_half_loop params.length params 0
  else params

theorem freeze_half_loop_getD (n : Nat) (ps : List Bool) :
    ∀ (count i : Nat), i < ps.length →
      (freeze_half_loop n ps count).getD i false = decide (n / 2 < count + i) := by
  induction ps with
  | nil => intro count i hi; simp at hi
  | cons p ps ih =>
    intro count i hi
    cases i with
    | zero =>
      rw [freeze_half_loop]
      simp only [List.getD_cons_zero, Nat.add_zero]
      by_cases h : n / 2 < count
      · simp [h]
      · simp [h]
    | succ j =>
      have hj : j < ps.length := by rw [List.length_cons] at hi; omega
      rw [freeze_half_loop]
      simp only [List.getD_cons_succ]
      rw [ih (count + 1) j hj]
      have harith : count + 1 + j = count + (j + 1) := by omega
      rw [harith]

/-- C8: the `half` freeze policy freezes exactly the parameters at
enumeration indices `0 .. P/2` (their `requires_grad` becomes `false`) and
makes exactly the parameters at indices `P/2 + 1 .. P - 1` trainable, for a
parameter set of size `P`, whatever the flags were before. -/
theorem freeze_layer_half_boundary (params : List Bool) (i : Nat)
    (h : i < params.length) :
    (freeze_layer ("half") params).length = params.length ∧
    (freeze_layer ("half") params).getD i false = decide (params.length / 2 < i) := by
  have hlen : ∀ (n : Nat) (ps : List Bool) (count : Nat),
      (freeze_half_loop n ps count).length = ps.length := by
    intro n ps
    induction ps with
    | nil => intro count; rfl
    | cons p ps ih => intro count; simp [freeze_half_loop, ih]
  have hunfold : freeze_layer ("half") params = freeze_half_loop params.length params 0 := rfl
  constructor
  · rw [hunfold]
    exact hlen _ _ _
  · rw [hunfold, freeze_half_loop_getD params.length params 0 i h]
    have harith : params.length / 2 < 0 + i ↔ params.length / 2 < i := by omega
    simp [harith]

/-- Witness for `freeze_layer_half_boundary`: five initially-trainable
parameters, index 3 (the first index past `5 / 2 = 2`) becomes trainable. -/
theorem freeze_layer_half_boundary_witness :
    3 < [true, true, true, true, true].length ∧
    ((freeze_layer ("half") [true, true, true, true, true]).length
        = [true, true, true, true, true].length ∧
    (freeze_layer ("half") [true, true, true, true, true]).getD 3 false
        = decide ([true, true, true, true, true].length / 2 < 3)) :=
  ⟨by decide, freeze_layer_half_boundary [true, true, true, true, true] 3 (by decide)⟩

/-! ## Model construction (`bert.py` lines 24-88, `twitter_data.py` 62, 145-151) -/

/-- The slice of the `TwitterData` state that the model reads: `__init__`
(lines 62-68) sets `n_class = 4` and `feature_dim = 1` unconditionally and
stores the (normalized) split strategy; `_find_class` only runs later,
inside `setup`. -/
structure TwitterDataState where
  n_class : Nat
  feature_dim : Nat
  split_type : String
  warned : Bool
deriving DecidableEq

/-- `TwitterData.__init__`: class count 4, feature dimension 1, and the
split-strategy normalization of `init_split_type`. -/
def twitter_data_init (split_type : String) : TwitterDataState :=
  { n_class := 4
    feature_dim := 1
    split_type := (init_split_type split_type).1
    warned := (init_split_type split_type).2 }

/-- `TwitterData._find_class` (lines 145-151): the class count is recomputed
as the number of distinct labels in the union of both sub-datasets
(`sorted(np.unique(...))`). -/
def find_class (label1 label2 : List String) (d : TwitterDataState) : TwitterDataState :=
  { d with n_class := ((label1 ++ label2).dedup).length }

/-- One stage of the classifier head `nn.Sequential`. -/
inductive Layer where
  | linear (in_features out_features : Nat)
  | relu
  | dropout
deriving DecidableEq

/-- The `for l in range(layer_num - 1)` loop of `make_classifier`
(lines 81-85): at width `sz` append `Linear(sz, sz // 2)`, `ReLU`,
`Dropout`, then continue at width `sz // 2`; returns the stages and the
final width. -/
def make_classifier_loop : Nat → Nat → List Layer × Nat
  | 0, sz => ([], sz)
  | k + 1, sz =>
    let rest := make_classifier_loop k (sz / 2)
    (Layer.linear sz (sz / 2) :: Layer.relu :: Layer.dropout :: rest.1, rest.2)

/-- `BertMNLIFinetuner.make_classifier` (lines 75-88): starting width is the
encoder hidden size, plus the hidden size of the tree branch when that branch
is enabled; after the halving stages a final `Linear(sz, num_classes)` is
appended. -/
def make_classifier (tree : Bool) (hidden_size tree_hidden_dim num_classes layer_num : Nat) :
    List Layer :=
  let sz := if tree then hidden_size + tree_hidden_dim else hidden_size
  let r := make_classifier_loop (layer_num - 1) sz
  r.1 ++ [Layer.linear r.2 num_classes]

/-- The slice of the `BertMNLIFinetuner` state that the claims concern. -/
structure BertState where
  num_classes : Nat
  feature_dim : Nat
  classifier : List Layer
  twdata : TwitterDataState
deriving DecidableEq

/-- `BertMNLIFinetuner.__init__` (lines 25-59): construct the internal
`TwitterData` (which initializes `n_class = 4`), read `feature_dim` and
`num_classes` from it immediately — before any `setup` runs — then build the
classifier head via `_create_model`/`make_classifier` with
`tree_hidden_dim = 100`. -/
def bert_init (hidden_size layer_num : Nat) (tree : Bool) (split_type : String) : BertState :=
  let twdata := twitter_data_init split_type
  let num_classes := twdata.n_class
  { num_classes := num_classes
    feature_dim := twdata.feature_dim
    classifier := make_classifier tree hidden_size 100 num_classes layer_num
    twdata := twdata }

/-- `BertMNLIFinetuner.setup` delegates to `TwitterData.setup`, whose load
step ends by running `_find_class` on the label lists of both sub-datasets; no
other model field is touched. -/
def bert_setup (m : BertState) (label1 label2 : List String) : BertState :=
  { m with twdata := find_class label1 label2 m.twdata }

/-- Output dimension of the classifier head: the `out_features` of its last
linear layer. -/
def classifier_out_dim (layers : List Layer) : Option Nat :=
  match layers.getLast? with
  | some (Layer.linear _ o) => some o
  | _ => none

/-- C10: the final linear layer of the classifier head has output dimension 4
for every constructed model — `num_classes` is read from the dataset component
`n_class` at construction time, which is the constant 4, and the later
recomputation by `_find_class` during setup only mutates the dataset state,
never the already-built head. -/
theorem classifier_head_always_four (hidden_size layer_num : Nat) (tree : Bool)
    (split_type : String) (label1 label2 : List String) :
    (twitter_data_init split_type).n_class = 4 ∧
    classifier_out_dim (bert_init hidden_size layer_num tree split_type).classifier = some 4 ∧
    (bert_setup (bert_init hidden_size layer_num tree split_type) label1 label2).classifier
      = (bert_init hidden_size layer_num tree split_type).classifier ∧
    (bert_setup (bert_init hidden_size layer_num tree split_type) label1 label2).num_classes
      = 4 := by
  refine ⟨rfl, ?_, rfl, rfl⟩
  rw [bert_init, classifier_out_dim]
  simp only [make_classifier]
  rw [List.getLast?_concat]
  rfl

end PredictiveData
